import Mathlib

/-!
Verification of the front-end lowering stage of a small compiler built on a
Cranelift-style backend.  The repository's own code (`src/codegen.rs`,
`src/module.rs`) consists of a `Codegen` wrapper holding a `ModuleType`
(JIT or object backend), delegated module operations, and a `run` entry
point, plus tests that hand-build IR functions through a FunctionBuilder.
Those parts are embedded below directly from the source.  The CFG/SSA
lowering algorithm described by the specification (block sealing, variable
resolution, statement lowering) lives in the external backend library and
is modelled from the spec where a claim needs it.
-/

namespace CompilerTest

/-! ## Backend module model

`ModState` abstracts the state shared by both backend variants through the
single `Module` capability contract (spec section 6: `make_signature`,
`declare_function`, `define_function`, `finalize`).  The concrete backends
are external collaborators; what matters to the repository code is that
both variants expose exactly this contract. -/

inductive Ty where
  | i8 | i16 | i32 | i64 | f32 | f64
deriving DecidableEq, Repr

structure Sig where
  params : List Ty
  returns : List Ty
deriving DecidableEq, Repr

inductive Linkage where
  | exported
  | imported
  | localLink
deriving DecidableEq, Repr

/-- Abstract backend-module state, the payload carried by either variant of
`ModuleType`.  `exec` gives the value returned by the finalized machine code
of each function id (the observable behaviour of
`get_finalized_function` followed by the call through the transmuted
pointer). -/
structure ModState where
  decls : List (String × Nat)
  nextId : Nat
  defined : List Nat
  exec : Nat → Int

/-- `Module::make_signature`: an empty parameter/return descriptor. -/
def ModState.make_signature (_ : ModState) : Sig := ⟨[], []⟩

/-- `Module::declare_function`: returns the existing id for an
already-declared name, otherwise allocates a fresh id. -/
def ModState.declare_function (m : ModState) (name : String) (_ : Linkage)
    (_ : Sig) : ModState × Nat :=
  match m.decls.lookup name with
  | some id => (m, id)
  | none =>
      ({ m with
          decls := (name, m.nextId) :: m.decls
          nextId := m.nextId + 1 }, m.nextId)

/-- `Module::define_function`: records the function id as defined. -/
def ModState.define_function (m : ModState) (fid : Nat) : ModState :=
  { m with defined := fid :: m.defined }

/-- `pub enum ModuleType { JITModule(JITModule), ObjectModule(ObjectModule) }`
(src/module.rs lines 15-18, src/codegen.rs lines 26-29). -/
inductive ModuleType where
  | jitModule (m : ModState)
  | objectModule (m : ModState)

/-- The underlying module state of either variant. -/
def ModuleType.payload : ModuleType → ModState
  | .jitModule m => m
  | .objectModule m => m

/-- The `delegate!` expansion for `make_signature` (src/module.rs line 40):
`match self { JITModule(jit) => jit.make_signature(), ObjectModule(obj) =>
obj.make_signature() }`. -/
def ModuleType.make_signature : ModuleType → Sig
  | .jitModule jit => jit.make_signature
  | .objectModule obj => obj.make_signature

/-- The `delegate!` expansion for `declare_function` (src/module.rs line 29). -/
def ModuleType.declare_function : ModuleType → String → Linkage → Sig →
    ModuleType × Nat
  | .jitModule jit, name, link, sig =>
      let (m, id) := jit.declare_function name link sig
      (.jitModule m, id)
  | .objectModule obj, name, link, sig =>
      let (m, id) := obj.declare_function name link sig
      (.objectModule m, id)

/-- The `delegate!` expansion for `define_function` (src/module.rs line 35). -/
def ModuleType.define_function : ModuleType → Nat → ModuleType
  | .jitModule jit, fid => .jitModule (jit.define_function fid)
  | .objectModule obj, fid => .objectModule (obj.define_function fid)

/-- `pub struct Codegen { pub module: ModuleType, pub functions:
HashMap<String, FuncId> }` (src/codegen.rs lines 21-24).  The `HashMap` is
modelled as an association list. -/
structure Codegen where
  module : ModuleType
  functions : List (String × Nat)

/-- `Codegen::new` (src/codegen.rs lines 60-65): the functions map starts
empty. -/
def Codegen.new (module : ModuleType) : Codegen :=
  ⟨module, []⟩

/-- Outcome of `Codegen::run`: Rust's `unwrap` on a missing `HashMap` entry
is a panic, distinct from the `Err` result returned for the object
variant and from a successful return value. -/
inductive RunOutcome (T : Type) where
  | panicked
  | error (msg : String)
  | ok (val : T)
deriving DecidableEq, Repr

/-- `Codegen::run` (src/codegen.rs lines 67-79): first
`self.functions.get(&func).unwrap()` — a panic when the name is absent —
then a match on the module variant: the JIT variant yields the finalized
entry point (whose invocation produces `exec func_id`), the object variant
returns an error. -/
def Codegen.run (cg : Codegen) (func : String) : RunOutcome Int :=
  match cg.functions.lookup func with
  | none => .panicked
  | some funcId =>
    match cg.module with
    | .jitModule jit => .ok (jit.exec funcId)
    | .objectModule _ => .error "Cannot run functions from object module"

/-- `Codegen::run_main` (src/codegen.rs lines 81-84). -/
def Codegen.run_main (cg : Codegen) : RunOutcome Int :=
  cg.run "main"

/-- A concrete backend state used for counterexamples and witnesses. -/
def mEx : ModState :=
  { decls := [("main", 0)], nextId := 1, defined := [0], exec := fun _ => 0 }

/-! ## IR and FunctionBuilder model

The tests in src/codegen.rs build functions through the backend's
`FunctionBuilder`: `create_block`, `switch_to_block`, instruction emission
(`iconst`, `iadd`, `icmp`, `brif`, `jump`, `return_`, `call`),
`declare_var`/`def_var`/`use_var`, `append_block_param`, `seal_block`.
The instructions are embedded here with SSA value ids allocated in
emission order, exactly as the builder does. -/

/-- i32 wrap-around: interpret an integer at 32-bit width, signed. -/
def wrap32 (x : Int) : Int := (x + 2 ^ 31) % 2 ^ 32 - 2 ^ 31

inductive Inst where
  | iconst (dst : Nat) (imm : Int)
  | iadd (dst a b : Nat)
  | icmpSlt (dst a b : Nat)
  | defVar (var : Nat) (src : Nat)
  | useVar (dst : Nat) (var : Nat)
  | call (dsts : List Nat) (callee : Nat) (args : List Nat)
deriving DecidableEq, Repr

inductive Terminator where
  | jump (target : Nat)
  | brif (cond : Nat) (thenB elseB : Nat)
  | ret (vals : List Nat)
deriving DecidableEq, Repr

/-- A basic block: entry parameters (value ids), instruction sequence and
one terminator (`Terminator.ret []` is the placeholder before a terminator
is emitted). -/
structure BBlock where
  params : List Nat
  insts : List Inst
  term : Terminator
deriving DecidableEq, Repr

/-- A finished function body: blocks indexed by creation order, entry is
block 0. -/
structure Fn where
  blocks : List BBlock
deriving DecidableEq, Repr

/-- FunctionBuilder state: blocks under construction, the active insertion
block, the SSA value counter and the list of sealed blocks in seal order. -/
structure FB where
  blocks : List BBlock
  cur : Nat
  nextVal : Nat
  sealedIds : List Nat
deriving Repr

def FB.empty : FB := ⟨[], 0, 0, []⟩

/-- Replace the block at index `i` (no-op when out of range). -/
def setBlock (bs : List BBlock) (i : Nat) (f : BBlock → BBlock) :
    List BBlock :=
  match bs.get? i with
  | some b => bs.set i (f b)
  | none => bs

/-- `create_block`: append a fresh empty block, returning its id. -/
def FB.createBlock (fb : FB) : FB × Nat :=
  ({ fb with blocks := fb.blocks ++ [⟨[], [], .ret []⟩] }, fb.blocks.length)

/-- `switch_to_block`. -/
def FB.switchTo (fb : FB) (b : Nat) : FB := { fb with cur := b }

/-- Append an instruction to the active block. -/
def FB.emit (fb : FB) (i : Inst) : FB :=
  { fb with blocks :=
      setBlock fb.blocks fb.cur (fun b => { b with insts := b.insts ++ [i] }) }

/-- Set the terminator of the active block. -/
def FB.setTerm (fb : FB) (t : Terminator) : FB :=
  { fb with blocks := setBlock fb.blocks fb.cur (fun b => { b with term := t }) }

/-- `ins().iconst(ty, imm)`: allocate a value id for the constant. -/
def FB.iconst (fb : FB) (imm : Int) : FB × Nat :=
  ({ fb.emit (.iconst fb.nextVal imm) with nextVal := fb.nextVal + 1 },
   fb.nextVal)

/-- `ins().iadd(a, b)`. -/
def FB.iadd (fb : FB) (a b : Nat) : FB × Nat :=
  ({ fb.emit (.iadd fb.nextVal a b) with nextVal := fb.nextVal + 1 }, fb.nextVal)

/-- `ins().icmp(SignedLessThan, a, b)`. -/
def FB.icmpSlt (fb : FB) (a b : Nat) : FB × Nat :=
  ({ fb.emit (.icmpSlt fb.nextVal a b) with nextVal := fb.nextVal + 1 },
   fb.nextVal)

/-- `def_var(var, src)`. -/
def FB.defVar (fb : FB) (var src : Nat) : FB := fb.emit (.defVar var src)

/-- `use_var(var)`: yields a value carrying the variable's current
definition. -/
def FB.useVar (fb : FB) (var : Nat) : FB × Nat :=
  ({ fb.emit (.useVar fb.nextVal var) with nextVal := fb.nextVal + 1 },
   fb.nextVal)

/-- `ins().call(callee, args)`: a single-result call. -/
def FB.callOne (fb : FB) (callee : Nat) (args : List Nat) : FB × Nat :=
  ({ fb.emit (.call [fb.nextVal] callee args) with nextVal := fb.nextVal + 1 },
   fb.nextVal)

/-- `ins().jump(target, &[])`. -/
def FB.jump (fb : FB) (target : Nat) : FB := fb.setTerm (.jump target)

/-- `ins().brif(cond, thenB, &[], elseB, &[])`. -/
def FB.brif (fb : FB) (cond thenB elseB : Nat) : FB :=
  fb.setTerm (.brif cond thenB elseB)

/-- `ins().return_(&[v...])`. -/
def FB.ret (fb : FB) (vals : List Nat) : FB := fb.setTerm (.ret vals)

/-- `append_block_param(block, ty)`: allocates a value id as a parameter of
the given block. -/
def FB.appendBlockParam (fb : FB) (b : Nat) : FB × Nat :=
  ({ fb with
      blocks := setBlock fb.blocks b
        (fun blk => { blk with params := blk.params ++ [fb.nextVal] })
      nextVal := fb.nextVal + 1 }, fb.nextVal)

/-- `seal_block`. -/
def FB.seal (fb : FB) (b : Nat) : FB :=
  { fb with sealedIds := fb.sealedIds ++ [b] }

/-- `finalize`: the finished function body. -/
def FB.finish (fb : FB) : Fn := ⟨fb.blocks⟩

/-! ## Interpreter

Execution semantics of the finalized machine code, modelled from the spec:
each instruction produces its value, `def_var`/`use_var` act on the
variable environment (which is exactly the meaning the backend's SSA
construction gives them), and a call dispatches to the semantics of the
callee, supplied as an environment of already-finalized functions. -/

abbrev Env := List (Nat × Int)

structure IState where
  vals : Env
  vars : Env

/-- Semantics of the already-defined functions a body may call, indexed by
function id. -/
abbrev FnSems := List (List Int → Option (List Int))

def bindList (e : Env) (ks : List Nat) (vs : List Int) : Env :=
  (ks.zip vs) ++ e

def runInst (sems : FnSems) (st : IState) : Inst → Option IState
  | .iconst d imm => some { st with vals := (d, wrap32 imm) :: st.vals }
  | .iadd d a b => do
      let x ← st.vals.lookup a
      let y ← st.vals.lookup b
      some { st with vals := (d, wrap32 (x + y)) :: st.vals }
  | .icmpSlt d a b => do
      let x ← st.vals.lookup a
      let y ← st.vals.lookup b
      some { st with vals := (d, if x < y then 1 else 0) :: st.vals }
  | .defVar v s => do
      let x ← st.vals.lookup s
      some { st with vars := (v, x) :: st.vars }
  | .useVar d v => do
      let x ← st.vars.lookup v
      some { st with vals := (d, x) :: st.vals }
  | .call ds c args => do
      let sem ← sems.get? c
      let avs ← args.mapM st.vals.lookup
      let rvs ← sem avs
      if ds.length = rvs.length then
        some { st with vals := bindList st.vals ds rvs }
      else none

def runInsts (sems : FnSems) : List Inst → IState → Option IState
  | [], st => some st
  | i :: rest, st => do
      let st1 ← runInst sems st i
      runInsts sems rest st1

/-- Run the function body starting at block `b` with the given state;
`fuel` bounds the number of block transitions. -/
def runBlocks (sems : FnSems) (fn : Fn) : Nat → Nat → IState →
    Option (List Int)
  | 0, _, _ => none
  | fuel + 1, b, st => do
      let blk ← fn.blocks.get? b
      let st1 ← runInsts sems blk.insts st
      match blk.term with
      | .ret vs => vs.mapM st1.vals.lookup
      | .jump t => runBlocks sems fn fuel t st1
      | .brif c t e => do
          let cv ← st1.vals.lookup c
          runBlocks sems fn fuel (if cv ≠ 0 then t else e) st1

/-- The semantics of a finished function: bind the entry block's parameters
to the arguments, then execute from the entry block. -/
def fnSem (sems : FnSems) (fn : Fn) (fuel : Nat) (args : List Int) :
    Option (List Int) := do
  let entry ← fn.blocks.get? 0
  if entry.params.length = args.length then
    runBlocks sems fn fuel 0 ⟨entry.params.zip args, []⟩
  else none

/-! ## Test replay: `tests::test_return_i32` (src/codegen.rs lines 110-160)

`function main() -> int32 { return 0; }`: one block, seal, `iconst 0`,
`return_`. -/

def returnI32Build : FB :=
  let (fb, block) := FB.empty.createBlock
  let fb := fb.switchTo block
  let fb := fb.seal block
  let (fb, zeroV) := fb.iconst 0
  fb.ret [zeroV]

def returnI32Fn : Fn := returnI32Build.finish

/-- Executing the finalized `main` of scenario A. -/
def returnI32Result : Option (List Int) := fnSem [] returnI32Fn 10 []

/-! ## Test replay: `tests::test_while` (src/codegen.rs lines 238-327)

`function main() -> int32 { var i; i = 0; while (i < 10) { i = i + 1; }
return i; }`: four blocks (entry, loop header, loop body, exit), built and
sealed exactly in the order the test emits them. -/

def whileBuild : FB :=
  let (fb, entryB) := FB.empty.createBlock
  let (fb, header) := fb.createBlock
  let (fb, body) := fb.createBlock
  let (fb, exitB) := fb.createBlock
  let fb := fb.switchTo entryB
  let iVar : Nat := 0
  let (fb, zeroV) := fb.iconst 0
  let fb := fb.defVar iVar zeroV
  let fb := fb.jump header
  let fb := fb.switchTo header
  let (fb, iVal) := fb.useVar iVar
  let (fb, ten) := fb.iconst 10
  let (fb, cond) := fb.icmpSlt iVal ten
  let fb := fb.brif cond body exitB
  let fb := fb.switchTo body
  let (fb, iVal2) := fb.useVar iVar
  let (fb, one) := fb.iconst 1
  let (fb, iPlusOne) := fb.iadd iVal2 one
  let fb := fb.defVar iVar iPlusOne
  let fb := fb.jump header
  let fb := fb.switchTo exitB
  let (fb, retVal) := fb.useVar iVar
  let fb := fb.ret [retVal]
  let fb := fb.seal entryB
  let fb := fb.seal header
  let fb := fb.seal body
  fb.seal exitB

def whileFn : Fn := whileBuild.finish

/-- Executing the finalized `main` of scenario B. -/
def whileResult : Option (List Int) := fnSem [] whileFn 60 []

/-! ## Test replay: `tests::test_function_definition_and_call`
(src/codegen.rs lines 329-443)

`add(a, b)` returns `a + b`; `main` calls `add(1, 2)` and returns the
result. -/

def addBuild : FB :=
  let (fb, entryB) := FB.empty.createBlock
  let fb := fb.switchTo entryB
  let (fb, a) := fb.appendBlockParam entryB
  let (fb, b) := fb.appendBlockParam entryB
  let (fb, sum) := fb.iadd a b
  let fb := fb.ret [sum]
  fb.seal entryB

def addFn : Fn := addBuild.finish

def callMainBuild : FB :=
  let (fb, entryB) := FB.empty.createBlock
  let fb := fb.switchTo entryB
  let (fb, one) := fb.iconst 1
  let (fb, two) := fb.iconst 2
  let addFuncRef : Nat := 0
  let (fb, result) := fb.callOne addFuncRef [one, two]
  let fb := fb.ret [result]
  fb.seal entryB

def callMainFn : Fn := callMainBuild.finish

/-- Executing the finalized `main` of scenario C: `add` was defined first,
so its finalized semantics is available to `main`'s call instruction. -/
def callMainResult : Option (List Int) :=
  fnSem [fun args => fnSem [] addFn 10 args] callMainFn 10 []

end CompilerTest

namespace CompilerTest

/-! ## Spec-modelled statement lowering (CFG shape)

Modelled from the spec: the Statement Lowerer of spec section 4.2 and the
CFG/SSA Builder operations of section 4.1 (block creation, active-block
switching, edge recording, sealing) are code of the external backend
library and of the described-but-missing lowering stage, not present under
src/.  Only the control-flow shape matters to the claims about loop
lowering: which blocks exist, their predecessor edges, their sealed flags,
and the order of builder events.  Straight-line statements (VarDecl,
Assign, Return, expression statements) create no blocks and no edges, so
they are collapsed into one `simple` constructor. -/

/-- Builder events, in emission order: block creation, a recorded
control-flow edge (from a jump or conditional branch), and sealing. -/
inductive Event where
  | create (b : Nat)
  | edge (src dst : Nat)
  | seal (b : Nat)
deriving DecidableEq, Repr

/-- An IR block as the CFG/SSA Builder tracks it: recorded predecessor
edges and the sealed flag. -/
structure SBlock where
  preds : List Nat
  isSealed : Bool
deriving DecidableEq, Repr

/-- Lowering state: blocks indexed by creation order, the active block, and
the trace of builder events. -/
structure LState where
  blocks : List SBlock
  cur : Nat
  trace : List Event
deriving Repr

def setSBlock (bs : List SBlock) (i : Nat) (f : SBlock → SBlock) :
    List SBlock :=
  match bs.get? i with
  | some b => bs.set i (f b)
  | none => bs

/-- Create a new Block (spec section 4.1): fresh, unsealed, no
predecessors. -/
def LState.mkBlock (st : LState) : LState × Nat :=
  ({ st with
      blocks := st.blocks ++ [⟨[], false⟩]
      trace := st.trace ++ [.create st.blocks.length] }, st.blocks.length)

/-- Switch the active insertion point. -/
def LState.switchTo (st : LState) (b : Nat) : LState := { st with cur := b }

/-- Record a control-flow edge from the active block to `d` (emitted by a
jump or a conditional branch): `d` gains the active block as a
predecessor. -/
def LState.addEdge (st : LState) (d : Nat) : LState :=
  { st with
      blocks := setSBlock st.blocks d (fun b => { b with preds := b.preds ++ [st.cur] })
      trace := st.trace ++ [.edge st.cur d] }

/-- seal(Block) (spec section 4.1): locks the predecessor set. -/
def LState.sealBlock (st : LState) (b : Nat) : LState :=
  { st with
      blocks := setSBlock st.blocks b (fun blk => { blk with isSealed := true })
      trace := st.trace ++ [.seal b] }

/-- Statements, reduced to their CFG shape: `simple` covers VarDecl,
Assign, Return and expression statements (no blocks or edges are created
for them); If and Loop carry their sub-statement lists. -/
inductive GStmt where
  | simple
  | ite (thenS elseS : List GStmt)
  | loop (body : List GStmt)
deriving Repr

/-- The state just before the loop body is lowered (spec section 4.2,
Loop): create header/body/exit Blocks, emit an unconditional jump from the
current Block into header (header left unsealed), lower the condition
inside header (expressions are straight-line: no shape change), emit a
conditional branch to body/exit, and switch into the body block. -/
def loopSetup (st : LState) : LState :=
  let (st, header) := st.mkBlock
  let (st, body) := st.mkBlock
  let (st, exitB) := st.mkBlock
  let st := st.addEdge header
  let st := st.switchTo header
  let st := st.addEdge body
  let st := st.addEdge exitB
  st.switchTo body

mutual

/-- Lowering of one statement (spec section 4.2). -/
def lowerStmt : GStmt → LState → LState
  | .simple, st => st
  | .ite thenS elseS, st =>
      let thenB := st.blocks.length
      let elseB := st.blocks.length + 1
      let mergeB := st.blocks.length + 2
      let st := (st.mkBlock).1
      let st := (st.mkBlock).1
      let st := (st.mkBlock).1
      let st := st.addEdge thenB
      let st := st.addEdge elseB
      let st := st.switchTo thenB
      let st := lowerStmts thenS st
      let st := st.addEdge mergeB
      let st := st.sealBlock thenB
      let st := st.switchTo elseB
      let st := lowerStmts elseS st
      let st := st.addEdge mergeB
      let st := st.sealBlock elseB
      let st := st.switchTo mergeB
      st.sealBlock mergeB
  | .loop body, st =>
      let header := st.blocks.length
      let bodyB := st.blocks.length + 1
      let exitB := st.blocks.length + 2
      let st := loopSetup st
      let st := lowerStmts body st
      let st := st.addEdge header
      let st := st.sealBlock bodyB
      let st := st.sealBlock header
      let st := st.sealBlock exitB
      st.switchTo exitB

/-- Lowering of a statement sequence. -/
def lowerStmts : List GStmt → LState → LState
  | [], st => st
  | s :: rest, st => lowerStmts rest (lowerStmt s st)

end

/-- The tail block of a lowered loop body: the active block after the body
statements have been lowered starting from the loop's body block. -/
def loopBodyTail (body : List GStmt) (st : LState) : Nat :=
  (lowerStmts body (loopSetup st)).cur

end CompilerTest

namespace CompilerTest

/-! ### Invariants of lowering: freshness and preservation -/

/-- An event only concerns blocks at or above index `n`: block creation and
sealing of such a block, or an edge terminating into such a block. -/
def Event.freshFor (n : Nat) : Event → Prop
  | .create b => n ≤ b
  | .edge _ d => n ≤ d
  | .seal b => n ≤ b

theorem Event.freshFor_weaken {m n : Nat} {e : Event} (h : e.freshFor n)
    (hmn : m ≤ n) : e.freshFor m := by
  cases e <;> simp only [Event.freshFor] at h ⊢ <;> omega

/-- `StepOK n st st'` says the lowering step from `st` to `st'` only grew
the block list, left every block below index `n` untouched, and appended
only events concerning blocks at or above `n`. -/
def StepOK (n : Nat) (st st' : LState) : Prop :=
  st.blocks.length ≤ st'.blocks.length ∧
  (∀ i, i < n → st'.blocks.get? i = st.blocks.get? i) ∧
  ∃ t, st'.trace = st.trace ++ t ∧ ∀ e ∈ t, e.freshFor n

theorem stepOK_refl (n : Nat) (st : LState) : StepOK n st st :=
  ⟨le_refl _, fun _ _ => rfl, [], by simp, by simp⟩

theorem StepOK.trans {n : Nat} {st st' st'' : LState} (h1 : StepOK n st st')
    (h2 : StepOK n st' st'') : StepOK n st st'' := by
  obtain ⟨l1, p1, t1, e1, f1⟩ := h1
  obtain ⟨l2, p2, t2, e2, f2⟩ := h2
  refine ⟨le_trans l1 l2, fun i hi => (p2 i hi).trans (p1 i hi),
    t1 ++ t2, by simp [e2, e1], ?_⟩
  intro e he
  rcases List.mem_append.mp he with h | h
  · exact f1 e h
  · exact f2 e h

theorem StepOK.weaken {m n : Nat} {st st' : LState} (h : StepOK n st st')
    (hmn : m ≤ n) : StepOK m st st' := by
  obtain ⟨l1, p1, t1, e1, f1⟩ := h
  exact ⟨l1, fun i hi => p1 i (lt_of_lt_of_le hi hmn), t1, e1,
    fun e he => Event.freshFor_weaken (f1 e he) hmn⟩

theorem setSBlock_length (bs : List SBlock) (i : Nat) (f : SBlock → SBlock) :
    (setSBlock bs i f).length = bs.length := by
  unfold setSBlock
  cases h : bs.get? i <;> simp

theorem setSBlock_get_ne (bs : List SBlock) (i : Nat) (f : SBlock → SBlock)
    (j : Nat) (h : i ≠ j) : (setSBlock bs i f).get? j = bs.get? j := by
  unfold setSBlock
  cases hb : bs.get? i
  · rfl
  · exact List.get?_set_ne _ _ h

theorem setSBlock_get_eq (bs : List SBlock) (i : Nat) (f : SBlock → SBlock)
    (b : SBlock) (h : bs.get? i = some b) :
    (setSBlock bs i f).get? i = some (f b) := by
  unfold setSBlock
  rw [h]
  exact List.get?_set_eq_of_lt _ (List.get?_eq_some.mp h).1

theorem mkBlock_ok (st : LState) :
    StepOK st.blocks.length st (st.mkBlock).1 := by
  refine ⟨by simp [LState.mkBlock], fun i hi => ?_,
    [.create st.blocks.length], by simp [LState.mkBlock], ?_⟩
  · simp only [LState.mkBlock]
    exact List.get?_append hi
  · intro e he
    simp only [List.mem_singleton] at he
    subst he
    simp [Event.freshFor]

theorem addEdge_ok {n : Nat} (st : LState) (d : Nat) (hd : n ≤ d) :
    StepOK n st (st.addEdge d) := by
  refine ⟨by simp [LState.addEdge, setSBlock_length], fun i hi => ?_,
    [.edge st.cur d], by simp [LState.addEdge], ?_⟩
  · simp only [LState.addEdge]
    exact setSBlock_get_ne _ _ _ _ (by omega)
  · intro e he
    simp only [List.mem_singleton] at he
    subst he
    simpa [Event.freshFor] using hd

theorem sealBlock_ok {n : Nat} (st : LState) (b : Nat) (hb : n ≤ b) :
    StepOK n st (st.sealBlock b) := by
  refine ⟨by simp [LState.sealBlock, setSBlock_length], fun i hi => ?_,
    [.seal b], by simp [LState.sealBlock], ?_⟩
  · simp only [LState.sealBlock]
    exact setSBlock_get_ne _ _ _ _ (by omega)
  · intro e he
    simp only [List.mem_singleton] at he
    subst he
    simpa [Event.freshFor] using hb

theorem switchTo_ok (n : Nat) (st : LState) (b : Nat) :
    StepOK n st (st.switchTo b) :=
  ⟨le_refl _, fun _ _ => rfl, [], by simp [LState.switchTo], by simp⟩

end CompilerTest

namespace CompilerTest

/-- Composition helper: extend a `StepOK` chain by a step that is `StepOK`
at the intermediate state's own block count. -/
theorem StepOK.step {n : Nat} {st a b : LState} (h : StepOK n st a)
    (h2 : StepOK a.blocks.length a b) (hn : n ≤ st.blocks.length) :
    StepOK n st b :=
  h.trans (h2.weaken (le_trans hn h.1))

/-- The setup phase of loop lowering only creates fresh blocks and edges
into them. -/
theorem loopSetup_ok (st : LState) :
    StepOK st.blocks.length st (loopSetup st) := by
  simp only [loopSetup, LState.mkBlock]
  exact ((((stepOK_refl st.blocks.length st).step (mkBlock_ok st)
      (le_refl _)).step (mkBlock_ok _) (le_refl _)).step (mkBlock_ok _)
      (le_refl _)).trans
    ((addEdge_ok _ _ (by simp)).trans
      ((switchTo_ok _ _ _).trans
        ((addEdge_ok _ _ (by simp)).trans
          ((addEdge_ok _ _ (by simp)).trans (switchTo_ok _ _ _)))))

mutual

/-- Lowering one statement only creates fresh blocks, leaves pre-existing
blocks untouched, and appends only events concerning fresh blocks. -/
theorem lowerStmt_ok (s : GStmt) (st : LState) :
    StepOK st.blocks.length st (lowerStmt s st) := by
  cases s with
  | simple =>
      simpa only [lowerStmt] using stepOK_refl st.blocks.length st
  | ite thenS elseS =>
      simp only [lowerStmt]
      exact (((((stepOK_refl st.blocks.length st).step (mkBlock_ok st)
          (le_refl _)).step (mkBlock_ok _) (le_refl _)).step (mkBlock_ok _)
          (le_refl _)).trans
        ((addEdge_ok _ _ (le_refl _)).trans
          ((addEdge_ok _ _ (by omega)).trans
            (switchTo_ok _ _ _)))).step (lowerStmts_ok thenS _) (le_refl _)
        |>.trans ((addEdge_ok _ _ (by omega)).trans
          ((sealBlock_ok _ _ (le_refl _)).trans (switchTo_ok _ _ _)))
        |>.step (lowerStmts_ok elseS _) (le_refl _)
        |>.trans ((addEdge_ok _ _ (by omega)).trans
          ((sealBlock_ok _ _ (by omega)).trans
            ((switchTo_ok _ _ _).trans (sealBlock_ok _ _ (by omega)))))
  | loop body =>
      simp only [lowerStmt]
      exact ((stepOK_refl st.blocks.length st).trans
          (loopSetup_ok st)).step (lowerStmts_ok body _) (le_refl _)
        |>.trans ((addEdge_ok _ _ (le_refl _)).trans
          ((sealBlock_ok _ _ (by omega)).trans
            ((sealBlock_ok _ _ (le_refl _)).trans
              ((sealBlock_ok _ _ (by omega)).trans (switchTo_ok _ _ _)))))

/-- Lowering a statement sequence only creates fresh blocks, leaves
pre-existing blocks untouched, and appends only events concerning fresh
blocks. -/
theorem lowerStmts_ok (ss : List GStmt) (st : LState) :
    StepOK st.blocks.length st (lowerStmts ss st) := by
  cases ss with
  | nil => simpa only [lowerStmts] using stepOK_refl st.blocks.length st
  | cons s rest =>
      simp only [lowerStmts]
      exact ((stepOK_refl st.blocks.length st).trans
        (lowerStmt_ok s st)).step (lowerStmts_ok rest _) (le_refl _)

end

end CompilerTest

namespace CompilerTest

theorem get_append3_first (l : List SBlock) (a b c : SBlock) :
    (((l ++ [a]) ++ [b]) ++ [c]).get? l.length = some a := by
  rw [List.get?_append (by simp), List.get?_append (by simp),
    List.get?_concat_length]

/-- After the loop setup phase, the header block exists, is unsealed, and
has exactly one predecessor: the block that was active before the loop. -/
theorem loopSetup_header (st : LState) :
    (loopSetup st).blocks.get? st.blocks.length = some ⟨[st.cur], false⟩ := by
  simp only [loopSetup, LState.mkBlock, LState.addEdge, LState.switchTo]
  rw [setSBlock_get_ne _ _ _ _
      (by simp only [List.length_append, List.length_singleton]; omega),
    setSBlock_get_ne _ _ _ _
      (by simp only [List.length_append, List.length_singleton]; omega),
    setSBlock_get_eq _ _ _ ⟨[], false⟩ (get_append3_first _ _ _ _)]
  simp

theorem loopSetup_len (st : LState) :
    (loopSetup st).blocks.length = st.blocks.length + 3 := by
  simp [loopSetup, LState.mkBlock, LState.addEdge, LState.switchTo,
    setSBlock_length]

end CompilerTest

namespace CompilerTest

/-- C2: once lowering of a Loop statement completes, its header block
(created at index `st.blocks.length`) is sealed and has exactly two
predecessors: the block that was active before the loop, and the tail
block of the lowered loop body (the back edge). -/
theorem loop_header_two_preds (body : List GStmt) (st : LState) :
    (lowerStmt (.loop body) st).blocks.get? st.blocks.length =
      some ⟨[st.cur, loopBodyTail body st], true⟩ := by
  have h1 : (lowerStmts body (loopSetup st)).blocks.get? st.blocks.length =
      some ⟨[st.cur], false⟩ := by
    rw [(lowerStmts_ok body (loopSetup st)).2.1 st.blocks.length
        (by rw [loopSetup_len]; omega),
      loopSetup_header]
  have h2 := setSBlock_get_eq (lowerStmts body (loopSetup st)).blocks
    st.blocks.length
    (fun b => { b with preds := b.preds ++ [(lowerStmts body (loopSetup st)).cur] })
    ⟨[st.cur], false⟩ h1
  have h3 : (setSBlock (setSBlock (lowerStmts body (loopSetup st)).blocks
      st.blocks.length
      (fun b => { b with
        preds := b.preds ++ [(lowerStmts body (loopSetup st)).cur] }))
      (st.blocks.length + 1)
      (fun blk => { blk with isSealed := true })).get? st.blocks.length =
      some ⟨[st.cur, loopBodyTail body st], false⟩ := by
    rw [setSBlock_get_ne _ _ _ _ (by omega), h2]
    simp [loopBodyTail]
  have h4 := setSBlock_get_eq _ st.blocks.length
    (fun blk => { blk with isSealed := true })
    ⟨[st.cur, loopBodyTail body st], false⟩ h3
  simp only [lowerStmt, LState.addEdge, LState.sealBlock, LState.switchTo]
  rw [setSBlock_get_ne _ _ _ _ (by omega), h4]

end CompilerTest

namespace CompilerTest

/-- The builder events emitted by the loop setup phase, in order: create
header/body/exit, the entry edge into the header, and the conditional
branch edges from the header to body and exit. -/
theorem loopSetup_trace (st : LState) :
    (loopSetup st).trace = st.trace ++
      [.create st.blocks.length, .create (st.blocks.length + 1),
       .create (st.blocks.length + 2),
       .edge st.cur st.blocks.length,
       .edge st.blocks.length (st.blocks.length + 1),
       .edge st.blocks.length (st.blocks.length + 2)] := by
  simp [loopSetup, LState.mkBlock, LState.addEdge, LState.switchTo]

end CompilerTest

namespace CompilerTest

/-- C3: in the builder-event trace of lowering a Loop statement, the seal
of the loop header comes strictly after the back edge (the edge from the
loop body's tail into the header), which itself comes after all events of
the body's lowering; the header is never sealed earlier. -/
theorem loop_seal_after_backedge (body : List GStmt) (st : LState) :
    ∃ t1 t2, (lowerStmt (.loop body) st).trace =
        st.trace ++ t1 ++ Event.seal st.blocks.length :: t2 ∧
      Event.edge (loopBodyTail body st) st.blocks.length ∈ t1 ∧
      ∀ e ∈ t1, e ≠ Event.seal st.blocks.length := by
  obtain ⟨bt, hbt, hfresh⟩ := (lowerStmts_ok body (loopSetup st)).2.2
  refine ⟨[.create st.blocks.length, .create (st.blocks.length + 1),
      .create (st.blocks.length + 2), .edge st.cur st.blocks.length,
      .edge st.blocks.length (st.blocks.length + 1),
      .edge st.blocks.length (st.blocks.length + 2)] ++ bt ++
      [.edge (loopBodyTail body st) st.blocks.length,
       .seal (st.blocks.length + 1)],
    [.seal (st.blocks.length + 2)], ?_, ?_, ?_⟩
  · simp only [lowerStmt, LState.addEdge, LState.sealBlock, LState.switchTo]
    rw [hbt, loopSetup_trace]
    simp [loopBodyTail, List.append_assoc]
  · exact List.mem_append_right _ (by simp)
  · intro e he
    rcases List.mem_append.mp he with hAB | hl
    · rcases List.mem_append.mp hAB with hA | hbt2
      · simp only [List.mem_cons, List.not_mem_nil, or_false] at hA
        rcases hA with rfl | rfl | rfl | rfl | rfl | rfl <;> simp
      · intro hc
        subst hc
        have hf := hfresh _ hbt2
        rw [loopSetup_len] at hf
        simp only [Event.freshFor] at hf
        omega
    · simp only [List.mem_cons, List.not_mem_nil, or_false] at hl
      rcases hl with rfl | rfl
      · simp
      · intro hc
        injection hc with h2
        omega

end CompilerTest

namespace CompilerTest

/-! ## Spec-modelled variable-use resolution

Modelled from the spec: the `use(slot)` resolution of spec section 4.1 is
code of the external backend's SSA builder, not present under src/.  A
resolution query runs over a CFG given by each block's local definitions
and predecessor list: a local definition is returned directly; otherwise
the query recurses through predecessors — forwarding directly for a single
predecessor, materializing a block parameter for several — memoizing by
never re-entering a block already on the query path (a cyclic query stands
for the provisional parameter itself).  A query that finds no producer on
any path signals UndefinedVariable; no default value is ever
substituted. -/

inductive LowerError where
  | duplicateFunction
  | unknownFunction
  | undefinedVariable
  | unsupportedConstruct
  | outOfFuel
deriving DecidableEq, Repr

/-- The CFG a resolution query runs over: per-block, per-slot local
definitions and per-block predecessor lists. -/
structure RCfg where
  localDef : Nat → Nat → Option Nat
  preds : Nat → List Nat

/-- Result of one recursive resolution step: a producing value, the
provisional parameter of a block already on the query path, no producer on
any path, or exhaustion of the step bound (an artifact of the bounded
model, never reached with enough fuel). -/
inductive RRes where
  | found (v : Nat)
  | pending
  | undef
  | fuelOut
deriving DecidableEq, Repr

/-- Combine the predecessors' resolved values at a multi-predecessor
block: collapse to a direct passthrough when every predecessor resolves to
the identical value (self-references ignored), signal no-producer when no
path yields one, and otherwise materialize the block parameter. -/
def combine (b slot : Nat) (rs : List RRes) : RRes :=
  if .fuelOut ∈ rs then .fuelOut
  else
    match rs.filterMap (fun r => match r with | .found v => some v | _ => none) with
    | [] => .undef
    | v :: rest =>
        if rest.all (· = v) && rs.all (fun r => r ≠ .undef) then .found v
        else .found (Nat.pair b slot)

/-- The recursive resolution of `use(slot)` starting at block `b`, with
`visited` the blocks already on the query path. -/
def resolveUse (g : RCfg) (slot : Nat) : Nat → List Nat → Nat → RRes
  | 0, _, _ => .fuelOut
  | fuel + 1, visited, b =>
    match g.localDef b slot with
    | some v => .found v
    | none =>
      if b ∈ visited then .pending
      else
        match g.preds b with
        | [] => .undef
        | [p] => resolveUse g slot fuel (b :: visited) p
        | ps => combine b slot (ps.map (resolveUse g slot fuel (b :: visited)))

/-- `use(slot)` at block `b`: a top-level query that resolves to a value
succeeds; one that comes back with no producer (directly, or as a
provisional parameter that was never fed a producer) signals
UndefinedVariable. -/
def useSlot (g : RCfg) (b slot fuel : Nat) : Except LowerError Nat :=
  match resolveUse g slot fuel [] b with
  | .found v => .ok v
  | .pending => .error .undefinedVariable
  | .undef => .error .undefinedVariable
  | .fuelOut => .error .outOfFuel

/-- A region of the CFG closed under predecessors in which no block
locally defines `slot`: no path out of any of its blocks carries a
definition. -/
def NoDefRegion (g : RCfg) (slot : Nat) (S : List Nat) : Prop :=
  ∀ x ∈ S, g.localDef x slot = none ∧ ∀ p ∈ g.preds x, p ∈ S

instance (g : RCfg) (slot : Nat) (S : List Nat) :
    Decidable (NoDefRegion g slot S) := by
  unfold NoDefRegion
  infer_instance

theorem nodup_subset_length {l s : List Nat} (h : l.Nodup)
    (hs : ∀ x ∈ l, x ∈ s) : l.length ≤ s.length := by
  have h1 : l.toFinset.card = l.length := List.toFinset_card_of_nodup h
  have h2 : l.toFinset ⊆ s.toFinset := by
    intro x hx
    simp only [List.mem_toFinset] at hx ⊢
    exact hs x hx
  have h3 := Finset.card_le_card h2
  have h4 := s.toFinset_card_le
  omega

theorem combine_all_nonfound (b slot : Nat) (rs : List RRes)
    (h : ∀ r ∈ rs, r = .pending ∨ r = .undef) :
    combine b slot rs = .undef := by
  unfold combine
  rw [if_neg, List.filterMap_eq_nil.mpr]
  · intro r hr
    rcases h r hr with rfl | rfl <;> rfl
  · intro hmem
    rcases h _ hmem with hc | hc <;> exact RRes.noConfusion hc

end CompilerTest

namespace CompilerTest

/-- In a predecessor-closed region with no definition of `slot`, a
resolution query never produces a value: it reports either the
provisional parameter of a block on the query path or no-producer, and
with fuel at least the region size it never exhausts the bound. -/
theorem resolveUse_no_def (g : RCfg) (slot : Nat) (S : List Nat)
    (hS : NoDefRegion g slot S) :
    ∀ (fuel : Nat) (visited : List Nat) (x : Nat), x ∈ S →
      visited.Nodup → (∀ v ∈ visited, v ∈ S) →
      S.length + 1 ≤ fuel + visited.length →
      resolveUse g slot fuel visited x = .pending ∨
        resolveUse g slot fuel visited x = .undef := by
  intro fuel
  induction fuel with
  | zero =>
      intro visited x hx hnd hsub hb
      have := nodup_subset_length hnd hsub
      omega
  | succ fuel ih =>
      intro visited x hx hnd hsub hb
      have hdef : g.localDef x slot = none := (hS x hx).1
      by_cases hv : x ∈ visited
      · left
        simp [resolveUse, hdef, hv]
      · have hpreds : ∀ p ∈ g.preds x, p ∈ S := (hS x hx).2
        have hnd2 : (x :: visited).Nodup := List.nodup_cons.mpr ⟨hv, hnd⟩
        have hsub2 : ∀ v ∈ x :: visited, v ∈ S := by
          intro v hv2
          rcases List.mem_cons.mp hv2 with rfl | hv2
          · exact hx
          · exact hsub v hv2
        have hb2 : S.length + 1 ≤ fuel + (x :: visited).length := by
          simp only [List.length_cons]
          omega
        rcases hp : g.preds x with _ | ⟨p, _ | ⟨q, rest⟩⟩
        · right
          simp [resolveUse, hdef, hv, hp]
        · have hpS : p ∈ S := hpreds p (by rw [hp]; exact List.mem_cons_self _ _)
          simp only [resolveUse, hdef, hv, hp, if_neg]
          exact ih (x :: visited) p hpS hnd2 hsub2 hb2
        · have hall : ∀ r ∈ (p :: q :: rest).map
              (resolveUse g slot fuel (x :: visited)),
              r = .pending ∨ r = .undef := by
            intro r hr
            obtain ⟨p2, hp2, rfl⟩ := List.mem_map.mp hr
            have hp2S : p2 ∈ S := hpreds p2 (by rw [hp]; exact hp2)
            exact ih (x :: visited) p2 hp2S hnd2 hsub2 hb2
          right
          simp only [resolveUse, hdef, hv, hp]
          exact combine_all_nonfound _ _ _ hall

end CompilerTest

namespace CompilerTest

/-- C1: for `function main() -> int32 { var i; i = 0; while (i < 10)
{ i = i + 1; } return i; }`, lowering produces exactly 4 blocks (entry,
loop header, loop body, exit) and executing the finalized entry point
returns 10. -/
theorem claim1_while_four_blocks_returns_ten :
    whileFn.blocks.length = 4 ∧ whileResult = some [10] := by
  constructor
  · rfl
  · decide

/-- C4: a `use(slot)` read at a block from which no path — neither the
block itself nor any chain of predecessors — carries a definition of the
slot signals UndefinedVariable; no zero or other default value is ever
substituted. -/
theorem claim4_use_undefined_variable (g : RCfg) (slot : Nat) (S : List Nat)
    (b : Nat) (hb : b ∈ S) (hS : NoDefRegion g slot S) :
    useSlot g b slot (S.length + 1) = .error .undefinedVariable := by
  rcases resolveUse_no_def g slot S hS (S.length + 1) [] b hb
      List.nodup_nil (by simp) (by simp) with h | h <;>
    simp [useSlot, h]

/-- A concrete CFG with a multi-predecessor block, a back edge and no
definition of any slot anywhere. -/
def gEx : RCfg :=
  { localDef := fun _ _ => none
    preds := fun b => if b = 0 then [1, 2] else if b = 2 then [0] else [] }

/-- Witness for C4: on the concrete no-definition CFG `gEx`, reading slot
0 at block 0 signals UndefinedVariable. -/
theorem claim4_use_undefined_variable_witness :
    (0 ∈ [0, 1, 2]) ∧ NoDefRegion gEx 0 [0, 1, 2] ∧
      useSlot gEx 0 0 4 = .error .undefinedVariable :=
  ⟨by decide, by decide,
    claim4_use_undefined_variable gEx 0 [0, 1, 2] 0 (by decide) (by decide)⟩

/-- C5 counterexample: the claim that every operation of the core takes a
code path independent of the module variant is false at `Codegen::run`:
with the identical underlying module state and functions map, `run`
succeeds on the JIT variant and returns an error on the object variant. -/
theorem claim5_counterexample :
    Codegen.run ⟨.jitModule mEx, [("main", 0)]⟩ "main" ≠
      Codegen.run ⟨.objectModule mEx, [("main", 0)]⟩ "main" := by
  decide

/-- C5 (amended): the delegated module operations (`declare_function`,
`make_signature`, `define_function`) act on the underlying module state
identically for both Target Module variants, through the one shared
capability contract; but `Codegen::run` does branch on the variant it
holds — for a name present in the functions map it yields the entry point
only on the JIT variant and returns an error on the object variant. -/
theorem claim5_delegation_uniform_but_run_branches :
    (∀ (m : ModState) (name : String) (link : Linkage) (sig : Sig),
        ((ModuleType.jitModule m).declare_function name link sig).1.payload =
          ((ModuleType.objectModule m).declare_function name link sig).1.payload ∧
        ((ModuleType.jitModule m).declare_function name link sig).2 =
          ((ModuleType.objectModule m).declare_function name link sig).2) ∧
    (∀ m : ModState, (ModuleType.jitModule m).make_signature =
        (ModuleType.objectModule m).make_signature) ∧
    (∀ (m : ModState) (fid : Nat),
        ((ModuleType.jitModule m).define_function fid).payload =
          ((ModuleType.objectModule m).define_function fid).payload) ∧
    (∀ (m : ModState) (fns : List (String × Nat)) (name : String) (fid : Nat),
        fns.lookup name = some fid →
        Codegen.run ⟨.jitModule m, fns⟩ name = .ok (m.exec fid) ∧
        Codegen.run ⟨.objectModule m, fns⟩ name =
          .error "Cannot run functions from object module") := by
  refine ⟨fun m name link sig => ?_, fun m => rfl, fun m fid => rfl,
    fun m fns name fid h => ?_⟩
  · simp only [ModuleType.declare_function, ModState.declare_function]
    cases m.decls.lookup name <;> simp [ModuleType.payload]
  · constructor <;> simp [Codegen.run, h]

/-- Witness for C5 (amended): the run-branching part applied at the
concrete state `mEx` with `main` mapped to function id 0. -/
theorem claim5_delegation_witness :
    ([("main", 0)] : List (String × Nat)).lookup "main" = some 0 ∧
      (Codegen.run ⟨.jitModule mEx, [("main", 0)]⟩ "main" = .ok (mEx.exec 0) ∧
       Codegen.run ⟨.objectModule mEx, [("main", 0)]⟩ "main" =
         .error "Cannot run functions from object module") :=
  ⟨by decide,
    claim5_delegation_uniform_but_run_branches.2.2.2 mEx [("main", 0)]
      "main" 0 (by decide)⟩

/-- C6: for `function main() -> int32 { return 0; }`, lowering produces
exactly one block whose body is a single return of the constant 0, and
executing the finalized entry point returns 0. -/
theorem claim6_return_zero :
    returnI32Fn.blocks = [⟨[], [.iconst 0 0], .ret [0]⟩] ∧
      returnI32Fn.blocks.length = 1 ∧ returnI32Result = some [0] := by
  refine ⟨rfl, rfl, ?_⟩
  decide

/-- C7: for `add(a, b)` returning `a + b` and `main` calling `add(1, 2)`
and returning the result, executing the finalized `main` returns 3. -/
theorem claim7_call_add_returns_three : callMainResult = some [3] := by
  decide

/-- C8 counterexample: the claim that `run` on the object variant returns
an error result for every function name is false for a name absent from
the functions map (here, any name on a fresh Codegen): `run` panics on the
`unwrap` before it ever inspects the variant, and a panic is not the
error result. -/
theorem claim8_counterexample :
    Codegen.run (Codegen.new (.objectModule mEx)) "main" = .panicked ∧
      (RunOutcome.panicked : RunOutcome Int) ≠
        .error "Cannot run functions from object module" := by
  decide

/-- C8 (amended): for every function name present in the functions map,
calling `run` on a Codegen holding the relocatable-object variant returns
an error result and never yields an invocable entry point; for a name
absent from the map it panics instead. -/
theorem claim8_object_run_errors (m : ModState) (fns : List (String × Nat))
    (name : String) (fid : Nat) (h : fns.lookup name = some fid) :
    Codegen.run ⟨.objectModule m, fns⟩ name =
      .error "Cannot run functions from object module" := by
  simp [Codegen.run, h]

/-- Witness for C8 (amended) at the concrete state `mEx` with `main`
mapped to function id 0. -/
theorem claim8_object_run_errors_witness :
    ([("main", 0)] : List (String × Nat)).lookup "main" = some 0 ∧
      Codegen.run ⟨.objectModule mEx, [("main", 0)]⟩ "main" =
        .error "Cannot run functions from object module" :=
  ⟨by decide, claim8_object_run_errors mEx [("main", 0)] "main" 0 (by decide)⟩

/-- C9: for every function name not present in the Codegen's functions map
— in particular any name on a freshly constructed Codegen, whose map
starts empty — `Codegen::run` panics on the `unwrap` of the missing map
entry instead of returning an error result. -/
theorem claim9_run_missing_name_panics (cg : Codegen) (name : String)
    (h : cg.functions.lookup name = none) :
    cg.run name = .panicked := by
  simp [Codegen.run, h]

/-- Witness for C9: a freshly constructed Codegen panics on `run "main"`. -/
theorem claim9_run_missing_name_panics_witness :
    (Codegen.new (.objectModule mEx)).functions.lookup "main" = none ∧
      (Codegen.new (.objectModule mEx)).run "main" = .panicked :=
  ⟨by decide,
    claim9_run_missing_name_panics (Codegen.new (.objectModule mEx)) "main"
      (by decide)⟩

/-- C10: for every Codegen state, `run_main()` returns exactly the same
result as `run("main")`. -/
theorem claim10_run_main_eq_run (cg : Codegen) :
    cg.run_main = cg.run "main" := rfl

end CompilerTest
